import Mathlib

/-!
Verification development for the Trunks blockchain event synchronizer
(src/src/main.rs).  Rust strings are modelled as lists of characters,
Starknet field elements as natural numbers, and fallible database / RPC
calls as explicit failure oracles together with traces of the writes and
queries that were attempted.
-/

namespace Trunks

/-- A Starknet field element.  Real felts lie below the Stark prime
(itself below 2 ^ 252); they are modelled as natural numbers because none
of the verified operations depend on the modulus. -/
abbrev Felt := Nat

/-- The prefix-stripping step of format_address (main.rs lines 270 to 274):
drop a leading 0x from the character list when present. -/
def strip0x (address : List Char) : List Char :=
  if address.take 2 = ['0', 'x'] then address.drop 2 else address

/-- Embedding of format_address (main.rs lines 269 to 279): strip an
optional leading 0x, left-pad the remaining characters with the zero
character to a minimum width of 64 (the Rust width-64 zero-fill format
never truncates), and put the 0x back. -/
def format_address (address : List Char) : List Char :=
  let hex_str := strip0x address
  ['0', 'x'] ++ (List.replicate (64 - hex_str.length) '0' ++ hex_str)

/-- A lower-case hexadecimal digit, the phrase used by the specification
sentence behind claim C7. -/
def isLowerHexDigit (c : Char) : Bool :=
  (('0' ≤ c) && (c ≤ '9')) || (('a' ≤ c) && (c ≤ 'f'))

/-- The num-traits conversion Felt::to_u8 used at main.rs line 218: the
value when it fits in an unsigned 8-bit integer, none otherwise. -/
def felt_to_u8 (v : Felt) : Option Nat :=
  if v < 256 then some v else none

/-- The num-traits conversion Felt::to_u64 used at main.rs line 219: the
value when it fits in an unsigned 64-bit integer, none otherwise. -/
def felt_to_u64 (v : Felt) : Option Nat :=
  if v < 2 ^ 64 then some v else none

/-- A single lower-case hexadecimal digit of a felt. -/
def hexDigitChar (n : Nat) : Char :=
  if n < 10 then Char.ofNat (48 + n) else Char.ofNat (97 + (n - 10))

/-- The starknet-types conversion Felt::to_fixed_hex_string used at
main.rs line 217: a 0x prefix followed by exactly 64 lower-case
hexadecimal digits of the value, most significant first. -/
def to_fixed_hex_string (v : Felt) : List Char :=
  ['0', 'x'] ++ (List.range 64).map (fun i => hexDigitChar (v / 16 ^ (63 - i) % 16))

/-- The decoded EventTimeout payload (main.rs lines 15 to 20). -/
structure EventTimeout where
  event_address : List Char
  event_outcome : Nat
  timestamp : Nat
  deriving DecidableEq

/-- Embedding of parse_event_finished_event (main.rs lines 215 to 229):
a payload of fewer than 3 felts is invalid; otherwise field 0 becomes the
formatted address, field 1 the outcome as a u8 defaulting to 0, field 2
the timestamp as a u64 defaulting to 0. -/
def parse_event_finished_event (data : List Felt) : Option EventTimeout :=
  match data with
  | a :: b :: c :: _ =>
      some { event_address := format_address (to_fixed_hex_string a)
             event_outcome := (felt_to_u8 b).getD 0
             timestamp := (felt_to_u64 c).getD 0 }
  | _ => none

/-- A row of the events table: address, is_active and outcome columns. -/
structure EventRecord where
  address : List Char
  is_active : Bool
  outcome : Int
  deriving DecidableEq

/-- A row of the bets table: event_address, bet and is_claimable
columns. -/
structure BetRecord where
  event_address : List Char
  bet : Int
  is_claimable : Bool
  deriving DecidableEq

/-- The relational store state visible to the projector. -/
structure Db where
  events : List EventRecord
  bets : List BetRecord
  deriving DecidableEq

/-- The two SQL update statements issued by the projector, as trace
entries. -/
inductive DbWrite
  | updateEvents (outcome : Int) (address : List Char)
  | updateBets (address : List Char) (bet : Int)
  deriving DecidableEq

/-- Effect of the first SQL statement of the projector (main.rs lines 232
to 237): set is_active to false and outcome on every events row whose
address matches. -/
def applyEventsUpdate (outcome : Int) (address : List Char) (db : Db) : Db :=
  { db with events := db.events.map (fun r =>
      if r.address = address then
        { r with is_active := false, outcome := outcome }
      else r) }

/-- Effect of the second SQL statement of the projector (main.rs lines
250 to 257): set is_claimable to true on every bets row whose
event_address and bet columns match. -/
def applyBetsUpdate (address : List Char) (bet : Int) (db : Db) : Db :=
  { db with bets := db.bets.map (fun b =>
      if b.event_address = address ∧ b.bet = bet then
        { b with is_claimable := true }
      else b) }

/-- Embedding of update_database_for_event_finished (main.rs lines 231 to
267).  The two booleans inject failures of the two SQL statements; a
failed statement leaves the store unchanged, and a failed first statement
returns early so that the second is never attempted.  The trace of
attempted writes is returned with the store. -/
def update_database_for_event_finished (ev : EventTimeout) (fail1 fail2 : Bool)
    (db : Db) : Db × List DbWrite :=
  let w1 := DbWrite.updateEvents (ev.event_outcome : Int) ev.event_address
  if fail1 then (db, [w1])
  else
    let db1 := applyEventsUpdate (ev.event_outcome : Int) ev.event_address db
    let outcome_as_int : Int := if ev.event_outcome = 1 then 1 else 0
    let w2 := DbWrite.updateBets ev.event_address outcome_as_int
    if fail2 then (db1, [w1, w2])
    else (applyBetsUpdate ev.event_address outcome_as_int db1, [w1, w2])

/-- The filter handed to the getEvents RPC call (main.rs lines 165 to
170); block identifiers are block numbers. -/
structure EventFilter where
  from_block : Option Nat
  to_block : Option Nat
  address : Option Felt
  keys : Option (List (List Felt))
  deriving DecidableEq

/-- One getEvents request: the filter, the continuation token and the
page size (main.rs line 173). -/
structure GetEventsQuery where
  filter : EventFilter
  continuation_token : Option (List Char)
  chunk_size : Nat
  deriving DecidableEq

/-- A raw emitted event: the data felts consumed by the decoder. -/
structure EmittedEvent where
  data : List Felt
  deriving DecidableEq

/-- One page of getEvents results. -/
structure EventsPage where
  events : List EmittedEvent
  continuation_token : Option (List Char)
  deriving DecidableEq

/-- Modelled from the spec: get_selector_from_name (main.rs lines 208 to
213) is a primitive of the external starknet library, the starknet Keccak
hash of the event name, which is absent from this repository.  Its value
for the name EventTimeout is modelled as a fixed felt constant; the
claims depend only on this constant being used as the event key of every
query. -/
def event_timeout_event_key : Felt := 0

/-- Embedding of process_block (main.rs lines 152 to 206), parameterised
by the RPC endpoint (a function from a query to a failure or a page of
events) and by the projector write-failure oracle for each decoded
event.  Returns the updated store and the list of queries issued. -/
def process_block (rpc : GetEventsQuery → Except Unit EventsPage)
    (writeFail : EventTimeout → Bool × Bool)
    (block_number : Nat) (contract_address : Felt) (db : Db) :
    Db × List GetEventsQuery :=
  let filter : EventFilter :=
    { from_block := some block_number
      to_block := some block_number
      address := some contract_address
      keys := some [[event_timeout_event_key]] }
  let chunk_size := 100
  let q : GetEventsQuery :=
    { filter := filter, continuation_token := none, chunk_size := chunk_size }
  match rpc q with
  | Except.error _ => (db, [q])
  | Except.ok page =>
      (page.events.foldl (fun d event =>
         match parse_event_finished_event event.data with
         | some event_finished =>
             (update_database_for_event_finished event_finished
               (writeFail event_finished).1 (writeFail event_finished).2 d).1
         | none => d) db,
       [q])

/-- The observable actions of the sync loop: an invocation of
process_block for one address and block, and a successful cursor write. -/
inductive Action
  | scan (address : Felt) (block : Nat)
  | advance (block : Nat)
  deriving DecidableEq

/-- Embedding of update_last_processed_block (main.rs lines 141 to 150)
with an injected per-block failure oracle: a failed UPDATE statement is
only logged and leaves the stored cursor unchanged. -/
def update_last_processed_block (failAdv : Nat → Bool)
    (cursor block_number : Nat) : Nat :=
  if failAdv block_number then cursor else block_number

/-- The block loop of process_new_events (main.rs lines 120 to 125): for
each block in order, invoke process_block for every tracked address, then
attempt the cursor write.  Returns the final cursor together with the
trace of scans and successful cursor writes, in program order. -/
def processBlocks (contract_addresses : List Felt) (failAdv : Nat → Bool)
    (blocks : List Nat) (cursor : Nat) : Nat × List Action :=
  match blocks with
  | [] => (cursor, [])
  | b :: rest =>
      let scans := contract_addresses.map (fun a => Action.scan a b)
      let cursor' := update_last_processed_block failAdv cursor b
      let adv := if failAdv b then ([] : List Action) else [Action.advance b]
      let r := processBlocks contract_addresses failAdv rest cursor'
      (r.1, scans ++ adv ++ r.2)

/-- Embedding of process_new_events (main.rs lines 100 to 129) at the
cursor level: when the latest chain block exceeds the stored cursor, the
blocks from cursor + 1 up to the latest block are processed in order;
otherwise the cycle does nothing. -/
def process_new_events (contract_addresses : List Felt) (failAdv : Nat → Bool)
    (latest_block cursor : Nat) : Nat × List Action :=
  if latest_block > cursor then
    processBlocks contract_addresses failAdv
      (List.range' (cursor + 1) (latest_block - cursor)) cursor
  else (cursor, [])

/-- One sync cycle's environment: the chain tip reported by the RPC and
the cursor-write failure oracle in effect during the cycle. -/
structure CycleInput where
  latest_block : Nat
  failAdv : Nat → Bool

/-- A sequence of sync cycles of the main loop (main.rs lines 37 to 42):
each cycle runs process_new_events from the currently stored cursor. -/
def runCycles (contract_addresses : List Felt) (inputs : List CycleInput)
    (cursor : Nat) : Nat :=
  match inputs with
  | [] => cursor
  | i :: rest =>
      runCycles contract_addresses rest
        (process_new_events contract_addresses i.failAdv i.latest_block cursor).1

theorem format_address_def (s : List Char) :
    format_address s =
      ['0', 'x'] ++ (List.replicate (64 - (strip0x s).length) '0' ++ strip0x s) :=
  rfl

theorem strip0x_format_address (s : List Char) :
    strip0x (format_address s) =
      List.replicate (64 - (strip0x s).length) '0' ++ strip0x s := by
  simp [strip0x, format_address, List.take]

/-- C7 is false as stated: format_address does not force lower case (the
input AB keeps its upper-case letters) and does not produce a fixed
66-character result (65 input digits give a 67-character result). -/
theorem C7_counterexample :
    (¬ ∀ c ∈ format_address ['A', 'B'], isLowerHexDigit c = true) ∧
    (format_address (List.replicate 65 'a')).length ≠ 66 := by
  constructor
  · decide
  · decide

/-- C7 (amended): for every input whose stripped digit part has at most 64
characters, format_address returns the 0x prefix followed by the digit
part left-padded with zero characters to exactly 64 characters (66
characters in total); the input characters, including their casing, are
preserved rather than lower-cased. -/
theorem C7_amended_zero_padded (address : List Char)
    (h : (strip0x address).length ≤ 64) :
    (format_address address).take 2 = ['0', 'x'] ∧
    (format_address address).drop 2 =
      List.replicate (64 - (strip0x address).length) '0' ++ strip0x address ∧
    (format_address address).length = 66 := by
  refine ⟨rfl, rfl, ?_⟩
  rw [format_address_def]
  simp only [List.length_append, List.length_replicate, List.length_cons,
    List.length_nil]
  omega

theorem C7_amended_zero_padded_witness :
    (strip0x ['A', 'B']).length ≤ 64 ∧
    ((format_address ['A', 'B']).take 2 = ['0', 'x'] ∧
     (format_address ['A', 'B']).drop 2 =
       List.replicate (64 - (strip0x ['A', 'B']).length) '0' ++
         strip0x ['A', 'B'] ∧
     (format_address ['A', 'B']).length = 66) :=
  ⟨by decide, C7_amended_zero_padded ['A', 'B'] (by decide)⟩

/-- C8: format_address strips an optional 0x prefix, left-pads the rest
with zeros to 64 characters preserving casing, and re-prefixes with 0x;
in particular the input AB maps to 0x followed by 62 zeros followed by
AB, and a 66-character input that already starts with 0x is returned
unchanged. -/
theorem C8_strip_pad_reprefix (s : List Char)
    (h66 : s.length = 66) (hpre : s.take 2 = ['0', 'x']) :
    (∀ t : List Char, format_address t =
      ['0', 'x'] ++ (List.replicate (64 - (strip0x t).length) '0' ++ strip0x t)) ∧
    format_address ['A', 'B'] =
      ['0', 'x'] ++ (List.replicate 62 '0' ++ ['A', 'B']) ∧
    format_address s = s := by
  refine ⟨fun t => rfl, by decide, ?_⟩
  have hstrip : strip0x s = s.drop 2 := by simp [strip0x, hpre]
  have hdrop : (s.drop 2).length = 64 := by simp [List.length_drop, h66]
  have h0 : 64 - (strip0x s).length = 0 := by rw [hstrip, hdrop]
  rw [format_address_def, h0, hstrip]
  calc ['0', 'x'] ++ (List.replicate 0 '0' ++ s.drop 2)
      = s.take 2 ++ s.drop 2 := by rw [hpre]; simp
    _ = s := List.take_append_drop 2 s

theorem C8_strip_pad_reprefix_witness :
    ((['0', 'x'] ++ List.replicate 64 'a').length = 66 ∧
     (['0', 'x'] ++ List.replicate 64 'a').take 2 = ['0', 'x']) ∧
    ((∀ t : List Char, format_address t =
       ['0', 'x'] ++ (List.replicate (64 - (strip0x t).length) '0' ++ strip0x t)) ∧
     format_address ['A', 'B'] =
       ['0', 'x'] ++ (List.replicate 62 '0' ++ ['A', 'B']) ∧
     format_address (['0', 'x'] ++ List.replicate 64 'a') =
       ['0', 'x'] ++ List.replicate 64 'a') :=
  ⟨⟨by decide, by decide⟩,
   C8_strip_pad_reprefix (['0', 'x'] ++ List.replicate 64 'a')
     (by decide) (by decide)⟩

/-- C9: format_address is idempotent. -/
theorem C9_format_address_idempotent (s : List Char) :
    format_address (format_address s) = format_address s := by
  have h1 := strip0x_format_address s
  have hlen : 64 ≤ (strip0x (format_address s)).length := by
    rw [h1]
    simp only [List.length_append, List.length_replicate]
    omega
  have h0 : 64 - (strip0x (format_address s)).length = 0 :=
    Nat.sub_eq_zero_of_le hlen
  rw [format_address_def (format_address s), h0, h1, format_address_def s]
  simp

/-- C10: format_address never truncates: when the stripped digit part is
longer than 64 characters it is reproduced unchanged after the 0x prefix,
and the result is longer than the nominal 66 characters. -/
theorem C10_no_truncation (s : List Char) (h : 64 < (strip0x s).length) :
    format_address s = ['0', 'x'] ++ strip0x s ∧
    66 < (format_address s).length := by
  have h0 : 64 - (strip0x s).length = 0 := Nat.sub_eq_zero_of_le (le_of_lt h)
  constructor
  · rw [format_address_def, h0]
    simp
  · rw [format_address_def, h0]
    simp only [List.length_append, List.length_replicate, List.length_cons,
      List.length_nil]
    omega

/-- C2: decoding returns invalid exactly on payloads of fewer than 3
fields; on a payload of at least 3 fields it always returns a value whose
outcome is field 1 as an unsigned 8-bit integer coerced to 0 when out of
range, and whose timestamp is field 2 as an unsigned 64-bit integer
coerced to 0 when out of range. -/
theorem C2_decode_total (data : List Felt) :
    (parse_event_finished_event data = none ↔ data.length < 3) ∧
    (3 ≤ data.length →
      ∃ ev : EventTimeout, parse_event_finished_event data = some ev ∧
        ev.event_outcome =
          (if data.getD 1 0 < 256 then data.getD 1 0 else 0) ∧
        ev.timestamp =
          (if data.getD 2 0 < 2 ^ 64 then data.getD 2 0 else 0)) := by
  match data with
  | [] => simp [parse_event_finished_event]
  | [a] => simp [parse_event_finished_event]
  | [a, b] => simp [parse_event_finished_event]
  | a :: b :: c :: rest =>
      refine ⟨by simp [parse_event_finished_event], fun _ => ?_⟩
      refine ⟨_, rfl, ?_, ?_⟩
      · show (felt_to_u8 b).getD 0 = _
        rw [List.getD_cons_succ, List.getD_cons_zero, felt_to_u8]
        by_cases hb : b < 256
        · rw [if_pos hb, if_pos hb, Option.getD_some]
        · rw [if_neg hb, if_neg hb, Option.getD_none]
      · show (felt_to_u64 c).getD 0 = _
        rw [List.getD_cons_succ, List.getD_cons_succ, List.getD_cons_zero,
          felt_to_u64]
        by_cases hc : c < 2 ^ 64
        · rw [if_pos hc, if_pos hc, Option.getD_some]
        · rw [if_neg hc, if_neg hc, Option.getD_none]

theorem C2_decode_total_witness :
    3 ≤ ([5, 300, 2 ^ 64] : List Felt).length ∧
    ∃ ev : EventTimeout,
      parse_event_finished_event [5, 300, 2 ^ 64] = some ev ∧
      ev.event_outcome = 0 ∧ ev.timestamp = 0 := by
  refine ⟨by decide, ?_⟩
  obtain ⟨ev, h1, h2, h3⟩ := (C2_decode_total [5, 300, 2 ^ 64]).2 (by decide)
  refine ⟨ev, h1, ?_, ?_⟩
  · rw [h2]; norm_num
  · rw [h3]; norm_num

theorem C10_no_truncation_witness :
    64 < (strip0x (List.replicate 65 'a')).length ∧
    (format_address (List.replicate 65 'a') =
       ['0', 'x'] ++ strip0x (List.replicate 65 'a') ∧
     66 < (format_address (List.replicate 65 'a')).length) :=
  ⟨by decide, C10_no_truncation (List.replicate 65 'a') (by decide)⟩

/-- C1: when both writes succeed, exactly the bet records for the event's
address whose bet side equals the outcome-derived claim side (1 when the
outcome code equals 1, 0 for every other outcome code) are marked
claimable, and every other bet record is unchanged; the bets table keeps
its length. -/
theorem C1_claimable_side (ev : EventTimeout) (db : Db) (i : Nat)
    (b : BetRecord) (h : db.bets[i]? = some b) :
    let claimSide : Int := if ev.event_outcome = 1 then 1 else 0
    let bets' := ((update_database_for_event_finished ev false false db).1).bets
    bets'.length = db.bets.length ∧
    (b.event_address = ev.event_address ∧ b.bet = claimSide →
      bets'[i]? = some { b with is_claimable := true }) ∧
    (¬ (b.event_address = ev.event_address ∧ b.bet = claimSide) →
      bets'[i]? = some b) := by
  intro claimSide bets'
  have hb : bets' = db.bets.map (fun r =>
      if r.event_address = ev.event_address ∧ r.bet = claimSide then
        { r with is_claimable := true }
      else r) := rfl
  have hget : bets'[i]? = some (if b.event_address = ev.event_address ∧
      b.bet = claimSide then { b with is_claimable := true } else b) := by
    rw [hb, List.getElem?_map, h]
    rfl
  refine ⟨by rw [hb, List.length_map], fun hc => ?_, fun hc => ?_⟩
  · rw [hget, if_pos hc]
  · rw [hget, if_neg hc]

theorem C1_claimable_side_witness :
    (Db.mk [] [BetRecord.mk ['a'] 0 false, BetRecord.mk ['a'] 1 false]).bets[0]? =
      some (BetRecord.mk ['a'] 0 false) ∧
    (let claimSide : Int :=
       if (EventTimeout.mk ['a'] 2 7).event_outcome = 1 then 1 else 0
     let bets' := ((update_database_for_event_finished (EventTimeout.mk ['a'] 2 7)
       false false
       (Db.mk [] [BetRecord.mk ['a'] 0 false, BetRecord.mk ['a'] 1 false])).1).bets
     bets'.length =
       (Db.mk [] [BetRecord.mk ['a'] 0 false,
         BetRecord.mk ['a'] 1 false]).bets.length ∧
     ((BetRecord.mk ['a'] 0 false).event_address =
         (EventTimeout.mk ['a'] 2 7).event_address ∧
       (BetRecord.mk ['a'] 0 false).bet = claimSide →
       bets'[0]? = some { BetRecord.mk ['a'] 0 false with is_claimable := true }) ∧
     (¬ ((BetRecord.mk ['a'] 0 false).event_address =
         (EventTimeout.mk ['a'] 2 7).event_address ∧
       (BetRecord.mk ['a'] 0 false).bet = claimSide) →
       bets'[0]? = some (BetRecord.mk ['a'] 0 false))) :=
  ⟨by decide,
   C1_claimable_side (EventTimeout.mk ['a'] 2 7)
     (Db.mk [] [BetRecord.mk ['a'] 0 false, BetRecord.mk ['a'] 1 false]) 0
     (BetRecord.mk ['a'] 0 false) (by decide)⟩

/-- C3: when the first write (the events-table update) fails, the
projector aborts this event: the store is returned unchanged (in
particular the bets table is untouched) and the trace of attempted
writes holds only the events update, so no bets write is attempted. -/
theorem C3_abort_on_first_write_failure (ev : EventTimeout) (f2 : Bool)
    (db : Db) :
    (update_database_for_event_finished ev true f2 db).1 = db ∧
    (update_database_for_event_finished ev true f2 db).2 =
      [DbWrite.updateEvents (ev.event_outcome : Int) ev.event_address] :=
  ⟨rfl, rfl⟩

theorem processBlocks_cons_fst (as : List Felt) (fa : Nat → Bool) (b : Nat)
    (rest : List Nat) (c : Nat) :
    (processBlocks as fa (b :: rest) c).1 =
      (processBlocks as fa rest (update_last_processed_block fa c b)).1 :=
  rfl

theorem processBlocks_cons_snd (as : List Felt) (fa : Nat → Bool) (b : Nat)
    (rest : List Nat) (c : Nat) :
    (processBlocks as fa (b :: rest) c).2 =
      as.map (fun a => Action.scan a b) ++
        ((if fa b then ([] : List Action) else [Action.advance b]) ++
          (processBlocks as fa rest (update_last_processed_block fa c b)).2) := by
  simp only [processBlocks, List.append_assoc]

theorem processBlocks_fst_mem (as : List Felt) (fa : Nat → Bool) :
    ∀ (blocks : List Nat) (c : Nat),
      (processBlocks as fa blocks c).1 = c ∨
        (processBlocks as fa blocks c).1 ∈ blocks := by
  intro blocks
  induction blocks with
  | nil => intro c; exact Or.inl rfl
  | cons b rest ih =>
      intro c
      rw [processBlocks_cons_fst]
      rcases ih (update_last_processed_block fa c b) with h | h
      · rw [h]
        unfold update_last_processed_block
        by_cases hf : fa b
        · rw [if_pos hf]; exact Or.inl rfl
        · rw [if_neg hf]; exact Or.inr (List.mem_cons_self b rest)
      · exact Or.inr (List.mem_cons_of_mem b h)

theorem process_new_events_fst_ge (as : List Felt) (fa : Nat → Bool)
    (latest c : Nat) : c ≤ (process_new_events as fa latest c).1 := by
  unfold process_new_events
  by_cases hlt : latest > c
  · rw [if_pos hlt]
    rcases processBlocks_fst_mem as fa (List.range' (c + 1) (latest - c)) c
      with h | h
    · rw [h]
    · obtain ⟨i, hi, hx⟩ := List.mem_range'.1 h
      rw [hx]
      omega
  · rw [if_neg hlt]

theorem runCycles_ge (as : List Felt) :
    ∀ (inputs : List CycleInput) (c : Nat), c ≤ runCycles as inputs c := by
  intro inputs
  induction inputs with
  | nil => intro c; exact le_refl c
  | cons i rest ih =>
      intro c
      have h1 := process_new_events_fst_ge as i.failAdv i.latest_block c
      have h2 := ih (process_new_events as i.failAdv i.latest_block c).1
      show c ≤ runCycles as rest
        (process_new_events as i.failAdv i.latest_block c).1
      omega

theorem processBlocks_advance_mem (as : List Felt) (fa : Nat → Bool) :
    ∀ (blocks : List Nat) (c B : Nat),
      Action.advance B ∈ (processBlocks as fa blocks c).2 → B ∈ blocks := by
  intro blocks
  induction blocks with
  | nil => intro c B h; simp [processBlocks] at h
  | cons b rest ih =>
      intro c B h
      rw [processBlocks_cons_snd] at h
      rcases List.mem_append.1 h with h | h
      · obtain ⟨a, _, ha2⟩ := List.mem_map.1 h
        exact Action.noConfusion ha2
      · rcases List.mem_append.1 h with h | h
        · by_cases hf : fa b
          · rw [if_pos hf] at h
            simp at h
          · rw [if_neg hf] at h
            have hb := List.mem_singleton.1 h
            injection hb with hB
            rw [hB]
            exact List.mem_cons_self b rest
        · exact List.mem_cons_of_mem b (ih _ _ h)

/-- C4: across every sequence of sync cycles, including cycles with
failing cursor writes, the persisted cursor is monotonically
non-decreasing; every successful advance within a cycle writes a block
number strictly greater than the cursor read at the start of the range,
and a failed advance leaves the cursor unchanged. -/
theorem C4_cursor_monotonic :
    (∀ (as : List Felt) (inputs : List CycleInput) (c : Nat),
      c ≤ runCycles as inputs c) ∧
    (∀ (as : List Felt) (fa : Nat → Bool) (latest c B : Nat),
      Action.advance B ∈ (process_new_events as fa latest c).2 → c < B) ∧
    (∀ (fa : Nat → Bool) (c b : Nat), fa b = true →
      update_last_processed_block fa c b = c) := by
  refine ⟨fun as inputs c => runCycles_ge as inputs c, ?_, ?_⟩
  · intro as fa latest c B h
    unfold process_new_events at h
    by_cases hlt : latest > c
    · rw [if_pos hlt] at h
      have hmem := processBlocks_advance_mem as fa _ c B h
      obtain ⟨i, hi, hx⟩ := List.mem_range'.1 hmem
      omega
    · rw [if_neg hlt] at h
      simp at h
  · intro fa c b hf
    unfold update_last_processed_block
    rw [if_pos hf]

theorem C4_cursor_monotonic_witness :
    (Action.advance 2 ∈ (process_new_events [7] (fun _ => false) 3 1).2 ∧
      1 < 2) ∧
    ((fun _ : Nat => true) 5 = true ∧
      update_last_processed_block (fun _ => true) 4 5 = 4) :=
  ⟨⟨by decide,
    C4_cursor_monotonic.2.1 [7] (fun _ => false) 3 1 2 (by decide)⟩,
   ⟨rfl, C4_cursor_monotonic.2.2 (fun _ => true) 4 5 rfl⟩⟩

theorem processBlocks_scan_before_advance (as : List Felt) (fa : Nat → Bool) :
    ∀ (blocks : List Nat) (c i B : Nat),
      (processBlocks as fa blocks c).2[i]? = some (Action.advance B) →
      ∀ a ∈ as, ∃ j, j < i ∧
        (processBlocks as fa blocks c).2[j]? = some (Action.scan a B) := by
  intro blocks
  induction blocks with
  | nil =>
      intro c i B h a ha
      simp [processBlocks] at h
  | cons b rest ih =>
      intro c i B h a ha
      rw [processBlocks_cons_snd] at h ⊢
      by_cases hiL : i < (as.map (fun x => Action.scan x b)).length
      · exfalso
        rw [List.getElem?_append_left hiL, List.getElem?_map] at h
        rcases hx : as[i]? with _ | x
        · rw [hx] at h; simp at h
        · rw [hx] at h; simp at h
      · push_neg at hiL
        rw [List.getElem?_append_right hiL] at h
        by_cases hf : fa b
        · rw [if_pos hf, List.nil_append] at h
          obtain ⟨j, hj, hjget⟩ := ih _ _ B h a ha
          refine ⟨(as.map (fun x => Action.scan x b)).length + j, by omega, ?_⟩
          rw [List.getElem?_append_right (by omega), Nat.add_sub_cancel_left,
            if_pos hf, List.nil_append]
          exact hjget
        · rw [if_neg hf] at h
          by_cases hi0 : i - (as.map (fun x => Action.scan x b)).length = 0
          · rw [hi0,
              List.getElem?_append_left (by simp)] at h
            simp only [List.getElem?_cons_zero, Option.some.injEq] at h
            injection h with hB
            subst hB
            obtain ⟨k, hk, hak⟩ := List.mem_iff_getElem.1 ha
            refine ⟨k, by simp only [List.length_map] at hi0 hiL; omega, ?_⟩
            rw [List.getElem?_append_left (by simpa using hk),
              List.getElem?_map, List.getElem?_eq_getElem hk, hak]
            rfl
          · rw [List.getElem?_append_right
              (by simp only [List.length_singleton]; omega)] at h
            simp only [List.length_singleton] at h
            obtain ⟨j, hj, hjget⟩ := ih _ _ B h a ha
            refine ⟨(as.map (fun x => Action.scan x b)).length + (1 + j),
              by simp only [List.length_map] at hiL hj hi0 ⊢; omega, ?_⟩
            rw [List.getElem?_append_right (by omega), Nat.add_sub_cancel_left,
              if_neg hf,
              List.getElem?_append_right
                (by simp only [List.length_singleton]; omega)]
            simpa [Nat.add_sub_cancel_left] using hjget

/-- C5: within a sync cycle the cursor is advanced to a block B only
after process_block has been invoked for every tracked address at block
B: in the cycle's trace, every successful advance of block B is preceded
by a scan of block B for each tracked address, regardless of individual
per-address failures. -/
theorem C5_scan_before_advance (as : List Felt) (fa : Nat → Bool)
    (latest c i B : Nat)
    (h : (process_new_events as fa latest c).2[i]? = some (Action.advance B))
    (a : Felt) (ha : a ∈ as) :
    ∃ j, j < i ∧
      (process_new_events as fa latest c).2[j]? = some (Action.scan a B) := by
  unfold process_new_events at h ⊢
  by_cases hlt : latest > c
  · rw [if_pos hlt] at h ⊢
    exact processBlocks_scan_before_advance as fa _ c i B h a ha
  · rw [if_neg hlt] at h
    simp at h

theorem C5_scan_before_advance_witness :
    ((process_new_events [5] (fun _ => false) 2 0).2[1]? =
        some (Action.advance 1) ∧ (5 : Felt) ∈ ([5] : List Felt)) ∧
    ∃ j, j < 1 ∧
      (process_new_events [5] (fun _ => false) 2 0).2[j]? =
        some (Action.scan 5 1) :=
  ⟨⟨by decide, by decide⟩,
   C5_scan_before_advance [5] (fun _ => false) 2 0 1 1 (by decide) 5
     (by decide)⟩

/-- C6: for every scanned address and block pair exactly one getEvents
query is issued, with block range exactly the single block on both ends,
the given contract address, the precomputed EventTimeout selector as the
only event key, page size 100 and no continuation token (so only the
first page of results is ever consumed); when this query fails the scan
applies nothing and the store is unchanged. -/
theorem C6_single_query (rpc : GetEventsQuery → Except Unit EventsPage)
    (writeFail : EventTimeout → Bool × Bool)
    (block_number : Nat) (contract_address : Felt) (db : Db) :
    (process_block rpc writeFail block_number contract_address db).2 =
      [{ filter := { from_block := some block_number
                     to_block := some block_number
                     address := some contract_address
                     keys := some [[event_timeout_event_key]] }
         continuation_token := none
         chunk_size := 100 }] ∧
    (∀ e : Unit,
      rpc { filter := { from_block := some block_number
                        to_block := some block_number
                        address := some contract_address
                        keys := some [[event_timeout_event_key]] }
            continuation_token := none
            chunk_size := 100 } = Except.error e →
      (process_block rpc writeFail block_number contract_address db).1 = db) := by
  simp only [process_block]
  rcases hq : rpc { filter := { from_block := some block_number
                                to_block := some block_number
                                address := some contract_address
                                keys := some [[event_timeout_event_key]] }
                    continuation_token := none
                    chunk_size := 100 } with e | page
  · exact ⟨rfl, fun _ _ => rfl⟩
  · refine ⟨rfl, fun e he => ?_⟩
    exact Except.noConfusion he

theorem C6_single_query_witness :
    ((fun _ : GetEventsQuery => (Except.error () : Except Unit EventsPage))
        { filter := { from_block := some 4
                      to_block := some 4
                      address := some 9
                      keys := some [[event_timeout_event_key]] }
          continuation_token := none
          chunk_size := 100 } = Except.error ()) ∧
    (process_block (fun _ => Except.error ()) (fun _ => (false, false)) 4 9
        (Db.mk [] [])).2 =
      [{ filter := { from_block := some 4
                     to_block := some 4
                     address := some 9
                     keys := some [[event_timeout_event_key]] }
         continuation_token := none
         chunk_size := 100 }] ∧
    (process_block (fun _ => Except.error ()) (fun _ => (false, false)) 4 9
        (Db.mk [] [])).1 = Db.mk [] [] :=
  ⟨rfl,
   (C6_single_query (fun _ => Except.error ()) (fun _ => (false, false)) 4 9
      (Db.mk [] [])).1,
   (C6_single_query (fun _ => Except.error ()) (fun _ => (false, false)) 4 9
      (Db.mk [] [])).2 () rfl⟩

end Trunks
